import Mathlib

/-!
Verification of the scheduling core of simple-scheduler (gantt.py):
the Chart / Project / Resource / Task data model, Task.schedule,
Task.end_date, Resource.is_free and Chart.calculate_schedule.

Dates are modelled as natural numbers: day n stands for the proleptic
Gregorian date with ordinal n + 1, so the weekday of day n is n % 7 with
0 = Monday .. 6 = Sunday, exactly Python's date.weekday(); adding ONE_DAY
in the source corresponds to + 1 here. 2024-01-01, a Monday with ordinal
738886, is day 738885.

Tasks are identified by their position in the single project's task list
(insertion order), resources by a numeric id. The mutable per-task
_start_date cache becomes an explicit state, a map from task id to
Option Nat; every operation of the source that mutates it returns the
new state.
-/

namespace Gantt

/-- Weekday of a date, 0 = Monday .. 6 = Sunday, as Python date.weekday(). -/
def weekday (d : Nat) : Nat := d % 7

/-- WEEKEND_DAYS = [5, 6] (Saturday, Sunday) from gantt.py. -/
def WEEKEND_DAYS : List Nat := [5, 6]

/-- Chart configuration read by the scheduling algorithm: name, start date
and the work_weekends flag (gantt.py Chart.__init__). -/
structure Chart where
  name : String
  start_date : Nat
  work_weekends : Bool

/-- Chart.skipped_days from gantt.py: [] when working weekends, else
WEEKEND_DAYS. -/
def Chart.skipped_days (c : Chart) : List Nat :=
  if c.work_weekends then [] else WEEKEND_DAYS

/-- One round of Task.end_date's while-loop up to and including the next day
that counts toward the duration: the source advances end_date one calendar day
at a time and increments work_done exactly on days whose weekday is not in
skipped_days. skipped_days is [] or [5, 6], so at most two consecutive days
are ever skipped and the next counted day is one of e + 1, e + 2, e + 3,
found by the same membership tests the loop performs. -/
def nextLaborDay (c : Chart) (e : Nat) : Nat :=
  if weekday (e + 1) ∈ c.skipped_days then
    if weekday (e + 2) ∈ c.skipped_days then e + 3 else e + 2
  else e + 1

/-- The while-loop of Task.end_date: one nextLaborDay round per unit of
work_done. It runs duration.toNat rounds: for duration ≤ 0 the source loop
exits immediately since work_done = 0 < duration already fails. -/
def endDateIter (c : Chart) : Nat → Nat → Nat
  | 0, e => e
  | n + 1, e => endDateIter c n (nextLaborDay c e)

/-- Task.end_date from gantt.py as a function of the owning chart, the cached
start date and the duration. -/
def end_date_from (c : Chart) (start : Nat) (duration : Int) : Nat :=
  endDateIter c duration.toNat start

/-- A task record: name, duration (an unvalidated integer), dependency task
ids in declaration order, assigned resource ids in declaration order
(gantt.py Task.__init__). -/
structure Task where
  name : String
  duration : Int
  dependencies : List Nat
  resources : List Nat

/-- The object graph the scheduler walks: the chart configuration and the
single project's tasks in insertion order. -/
structure Graph where
  chart : Chart
  tasks : List Task

/-- Task record of task id i (out-of-range ids give an inert empty task). -/
def Graph.task (g : Graph) (i : Nat) : Task :=
  g.tasks.getD i ⟨"", 0, [], []⟩

/-- Scheduling state: the mutable _start_date cache of every task, by task id.
none means not yet scheduled. -/
def State := Nat → Option Nat

/-- The state in which no task has been scheduled. -/
def emptyState : State := fun _ => none

/-- Write one task's cached start date. -/
def State.set (σ : State) (i : Nat) (v : Option Nat) : State :=
  fun j => if j = i then v else σ j

/-- Task.is_scheduled from gantt.py: the cached start date is set. -/
def Task.is_scheduled (σ : State) (i : Nat) : Bool := (σ i).isSome

/-- Cached start date of a task (Task.start_date read on a scheduled task;
every use below is guarded by is_scheduled, as in the source). -/
def Task.start_date (σ : State) (i : Nat) : Nat := (σ i).getD 0

/-- Task.end_date from gantt.py for task i under state σ. -/
def Task.end_date (g : Graph) (σ : State) (i : Nat) : Nat :=
  end_date_from g.chart (Task.start_date σ i) (g.task i).duration

/-- Tasks assigned to resource r (Resource.tasks in the source): mutual
registration in add_task / add_resource keeps a resource's task list exactly
the tasks listing r among their resources, in task order. -/
def Resource.tasks (g : Graph) (r : Nat) : List Nat :=
  (List.range g.tasks.length).filter fun i => r ∈ (g.task i).resources

/-- Resource.is_free from gantt.py: false exactly when some assigned task is
scheduled and its inclusive [start_date, end_date] interval contains the day. -/
def Resource.is_free (g : Graph) (σ : State) (r : Nat) (d : Nat) : Bool :=
  (Resource.tasks g r).all fun i =>
    ! (Task.is_scheduled σ i && decide (Task.start_date σ i ≤ d)
        && decide (d ≤ Task.end_date g σ i))

/-- The message of the SchedulingError raised by Task.schedule, with the
unscheduled dependency's name and the dependent task's name interpolated as in
the source format string. -/
def schedErrMsg (dep self : String) : String :=
  "Task " ++ dep ++ " is a dependency of " ++ self ++
    " but has not been scheduled. Please place task prior to " ++ self ++
    " in project"

/-- Dependency loop of Task.schedule: walk the dependencies in declaration
order, raising on the first unscheduled one, and advance the candidate to
end_date + 1 day whenever a dependency's end date is strictly later than the
candidate. -/
def depScan (g : Graph) (σ : State) (selfName : String) :
    List Nat → Nat → Except String Nat
  | [], cand => .ok cand
  | j :: rest, cand =>
    if Task.is_scheduled σ j then
      depScan g σ selfName rest
        (if cand < Task.end_date g σ j then Task.end_date g σ j + 1 else cand)
    else .error (schedErrMsg (g.task j).name selfName)

/-- One pass of the resource-deconfliction while-loop of Task.schedule: check
every assigned resource in order against the current candidate day, advancing
the candidate by one day each time a resource is busy on it (the source's
for-loop keeps going over the remaining resources with the advanced day).
Returns the candidate and whether the whole pass found only free days. -/
def resourcePass (g : Graph) (σ : State) : List Nat → Nat → Bool → Nat × Bool
  | [], d, free => (d, free)
  | r :: rs, d, free =>
    if Resource.is_free g σ r d then resourcePass g σ rs d free
    else resourcePass g σ rs (d + 1) false

/-- One past the latest end date of any scheduled task: from that day on every
resource is free, which bounds the deconfliction loop's iterations. -/
def State.bound (g : Graph) (σ : State) : Nat :=
  (List.range g.tasks.length).foldr
    (fun i acc =>
      if Task.is_scheduled σ i then max (Task.end_date g σ i + 1) acc else acc) 0

/-- The resource-deconfliction while-loop: repeat passes until one finds every
resource free on the candidate day. fuel bounds the number of passes;
Task.schedule supplies State.bound + 1, proven sufficient below. -/
def deconflictFuel (g : Graph) (σ : State) (rs : List Nat) : Nat → Nat → Nat
  | 0, d => d
  | fuel + 1, d =>
    match resourcePass g σ rs d true with
    | (d1, true) => d1
    | (d1, false) => deconflictFuel g σ rs fuel d1

/-- Task.clear_schedule from gantt.py. -/
def Task.clear_schedule (σ : State) (i : Nat) : State := State.set σ i none

/-- Task.schedule from gantt.py: clear the cached date, fold the dependency
lower bound (raising on an unscheduled dependency), deconflict resources day
by day, commit the candidate. Returns the raised message, if any, together
with the state the mutations left behind. -/
def Task.schedule (g : Graph) (σ : State) (i : Nat) : Option String × State :=
  let σ1 := Task.clear_schedule σ i
  let t := g.task i
  match depScan g σ1 t.name t.dependencies g.chart.start_date with
  | .error e => (some e, σ1)
  | .ok cand =>
    (none, State.set σ1 i
      (some (deconflictFuel g σ1 t.resources (State.bound g σ1 + 1) cand)))

/-- Loop body of Chart.calculate_schedule: schedule each listed task in order,
stopping at the first raised error (the exception propagates to the caller). -/
def calcAux (g : Graph) : List Nat → State → Option String × State
  | [], σ => (none, σ)
  | i :: rest, σ =>
    match Task.schedule g σ i with
    | (none, σ1) => calcAux g rest σ1
    | (some e, σ1) => (some e, σ1)

/-- Chart.calculate_schedule from gantt.py: schedule every task of the single
project in insertion order. -/
def Chart.calculate_schedule (g : Graph) (σ : State) : Option String × State :=
  calcAux g (List.range g.tasks.length) σ

/-- Project-attachment state of a chart: the chart's project list and every
project's back-reference to its chart, by id. -/
structure ProjState where
  projects : List Nat
  projChart : Nat → Option Nat

/-- Chart.add_project from gantt.py for chart id c: no-op when the project is
already in the list; raise when the list is already non-empty; otherwise
append and back-link (project.set_chart(self), whose recursive add_project
call is a no-op because the project is in the list by then). Returns the
raised message, if any, with the state left behind: on the error path the
raise happens before the append, so the state is unchanged. -/
def Chart.add_project (st : ProjState) (c p : Nat) : Option String × ProjState :=
  if p ∈ st.projects then (none, st)
  else if 1 ≤ st.projects.length then
    (some "Simple Gantt can only handle a single project at a time currently", st)
  else (none, ⟨st.projects ++ [p], fun q => if q = p then some c else st.projChart q⟩)

/-- s has sub as a contiguous substring. -/
def Contains (s sub : String) : Prop := ∃ p q : String, s = p ++ (sub ++ q)

/-- Day number of 2024-01-01 (a Monday): proleptic ordinal 738886 minus 1. -/
def jan1_2024 : Nat := 738885

/-- Scenario graph of C2: chart starts 2024-01-01 with weekends skipped;
resource A is id 0; task X (id 0) has duration 2, resource A, no dependency;
task Y (id 1) has duration 1, resource A and depends on X. -/
def graphC2 : Graph :=
  ⟨⟨"chart", jan1_2024, false⟩, [⟨"X", 2, [], [0]⟩, ⟨"Y", 1, [0], [0]⟩]⟩

/-- Counterexample graph for C4 and C5: chart starts day 0 (a Monday), weekends
skipped; K (id 0, duration 1) uses resource 0; I (id 1, duration 1) uses
resources 0 and 1; J (id 2, duration 5) uses resource 1. -/
def graphKIJ : Graph :=
  ⟨⟨"chart", 0, false⟩,
    [⟨"K", 1, [], [0]⟩, ⟨"I", 1, [], [0, 1]⟩, ⟨"J", 5, [], [1]⟩]⟩

/-- Counterexample graph for C3: A (id 0) and B (id 1) have no dependencies;
C (id 2) depends on both, declared in the order A, B. B ends exactly one day
after A, so when C's dependency loop reaches B the candidate already equals
B's end date and is not advanced past it. -/
def graphABC : Graph :=
  ⟨⟨"chart", 0, false⟩,
    [⟨"A", 1, [], []⟩, ⟨"B", 2, [], []⟩, ⟨"C", 1, [0, 1], []⟩]⟩

/-- Witness graph for C6: task B (id 0) depends on task A (id 1), which has
not been scheduled when B is. -/
def graphDep : Graph :=
  ⟨⟨"chart", 0, false⟩, [⟨"B", 1, [1], []⟩, ⟨"A", 1, [], []⟩]⟩

/-- Witness graph for the amended C5: two tasks with disjoint resources and
dependencies pointing backwards. -/
def graphNoShare : Graph :=
  ⟨⟨"chart", 0, false⟩, [⟨"P", 1, [], [0]⟩, ⟨"Q", 1, [0], [1]⟩]⟩

theorem State.set_self (σ : State) (i : Nat) (v : Option Nat) : State.set σ i v i = v := by
  simp [State.set]

theorem State.set_other (σ : State) (i j : Nat) (v : Option Nat) (h : j ≠ i) :
    State.set σ i v j = σ j := by
  simp [State.set, h]

theorem nextLaborDay_gt (c : Chart) (e : Nat) : e < nextLaborDay c e := by
  unfold nextLaborDay
  split
  · split <;> omega
  · omega

theorem endDateIter_ge (c : Chart) (n : Nat) (e : Nat) : e ≤ endDateIter c n e := by
  induction n generalizing e with
  | zero => simp [endDateIter]
  | succ n ih =>
    have h1 := nextLaborDay_gt c e
    have h2 := ih (nextLaborDay c e)
    have : endDateIter c (n + 1) e = endDateIter c n (nextLaborDay c e) := rfl
    omega

theorem endDateIter_gt (c : Chart) (n : Nat) (e : Nat) (h : 0 < n) :
    e < endDateIter c n e := by
  cases n with
  | zero => omega
  | succ n =>
    have h1 := nextLaborDay_gt c e
    have h2 := endDateIter_ge c n (nextLaborDay c e)
    have : endDateIter c (n + 1) e = endDateIter c n (nextLaborDay c e) := rfl
    omega

/-- C1: for a task scheduled with weekends skipped and duration at least 1 the
end date, computed by the day-by-day loop of Task.end_date that never counts
the start day itself, lies strictly after the start date; a 1-day task whose
start date is a Monday ends on the following day, Tuesday. -/
theorem end_date_after_start (c : Chart) (s : Nat) (dur : Int)
    (hww : c.work_weekends = false) (hdur : 1 ≤ dur) :
    s < end_date_from c s dur ∧
      (dur = 1 → weekday s = 0 → end_date_from c s dur = s + 1) := by
  constructor
  · have hpos : 0 < dur.toNat := by omega
    exact endDateIter_gt c dur.toNat s hpos
  · intro hd hmon
    have h0 : s % 7 = 0 := hmon
    have h7 : (s + 1) % 7 = 1 := by omega
    subst hd
    simp [end_date_from, endDateIter, nextLaborDay, Chart.skipped_days, hww,
      WEEKEND_DAYS, weekday, h7]

/-- Witness for C1 at a concrete chart and date: day 0 is a Monday. -/
theorem end_date_after_start_witness :
    (0 : Nat) < end_date_from ⟨"c", 0, false⟩ 0 1 ∧
      end_date_from ⟨"c", 0, false⟩ 0 1 = 0 + 1 := by
  have h := end_date_after_start ⟨"c", 0, false⟩ 0 1 rfl (by decide)
  exact ⟨h.1, h.2 rfl rfl⟩

/-- C10: for a scheduled task with duration zero or negative the while-loop of
Task.end_date exits immediately, so the end date equals the start date itself
and no error arises. -/
theorem end_date_degenerate (c : Chart) (s : Nat) (dur : Int) (h : dur ≤ 0) :
    end_date_from c s dur = s := by
  have h0 : dur.toNat = 0 := by omega
  simp [end_date_from, h0, endDateIter]

/-- Witness for C10 at duration -3. -/
theorem end_date_degenerate_witness : end_date_from ⟨"c", 0, false⟩ 5 (-3) = 5 :=
  end_date_degenerate ⟨"c", 0, false⟩ 5 (-3) (by decide)

theorem busy_guard_iff (a : Bool) (p q : Prop) [Decidable p] [Decidable q] :
    (!(a && decide p && decide q)) = true ↔ (a = true → ¬ (p ∧ q)) := by
  cases a <;> by_cases hp : p <;> by_cases hq : q <;> simp [hp, hq]

theorem is_free_iff (g : Graph) (σ : State) (r d : Nat) :
    Resource.is_free g σ r d = true ↔
      ∀ i ∈ Resource.tasks g r, Task.is_scheduled σ i = true →
        ¬ (Task.start_date σ i ≤ d ∧ d ≤ Task.end_date g σ i) := by
  simp only [Resource.is_free, List.all_eq_true]
  exact forall_congr' fun i => forall_congr' fun hi =>
    busy_guard_iff (Task.is_scheduled σ i) (Task.start_date σ i ≤ d)
      (d ≤ Task.end_date g σ i)

theorem mem_resource_tasks (g : Graph) (r i : Nat) (h : i ∈ Resource.tasks g r) :
    i < g.tasks.length ∧ r ∈ (g.task i).resources := by
  have h2 := List.mem_filter.mp h
  exact ⟨List.mem_range.mp h2.1, by simpa using h2.2⟩

theorem depScan_ok_le (g : Graph) (σ : State) (nm : String) :
    ∀ (L : List Nat) (cand c : Nat), depScan g σ nm L cand = .ok c → cand ≤ c := by
  intro L
  induction L with
  | nil =>
    intro cand c h
    simp only [depScan] at h
    cases h
    omega
  | cons j rest ih =>
    intro cand c h
    simp only [depScan] at h
    split at h
    · have hle := ih _ _ h
      split at hle <;> omega
    · cases h

theorem depScan_ok_end_le (g : Graph) (σ : State) (nm : String) :
    ∀ (L : List Nat) (cand c : Nat), depScan g σ nm L cand = .ok c →
      ∀ j ∈ L, Task.end_date g σ j ≤ c := by
  intro L
  induction L with
  | nil =>
    intro cand c _ j hj
    cases hj
  | cons j0 rest ih =>
    intro cand c h j hj
    simp only [depScan] at h
    split at h
    · rcases List.mem_cons.mp hj with rfl | hj2
      · have hle := depScan_ok_le g σ nm rest _ _ h
        split at hle <;> omega
      · exact ih _ _ h j hj2
    · cases h

theorem depScan_ok_sched (g : Graph) (σ : State) (nm : String) :
    ∀ (L : List Nat) (cand c : Nat), depScan g σ nm L cand = .ok c →
      ∀ j ∈ L, Task.is_scheduled σ j = true := by
  intro L
  induction L with
  | nil =>
    intro cand c _ j hj
    cases hj
  | cons j0 rest ih =>
    intro cand c h j hj
    simp only [depScan] at h
    split at h
    · rcases List.mem_cons.mp hj with rfl | hj2
      · assumption
      · exact ih _ _ h j hj2
    · cases h

theorem depScan_error_spec (g : Graph) (σ : State) (nm : String) :
    ∀ (L : List Nat) (cand : Nat) (e : String), depScan g σ nm L cand = .error e →
      ∃ j ∈ L, Task.is_scheduled σ j = false ∧ e = schedErrMsg (g.task j).name nm := by
  intro L
  induction L with
  | nil =>
    intro cand e h
    cases h
  | cons j0 rest ih =>
    intro cand e h
    simp only [depScan] at h
    split at h
    · obtain ⟨j, hj, hns, he⟩ := ih _ _ h
      exact ⟨j, List.mem_cons_of_mem _ hj, hns, he⟩
    · cases h
      refine ⟨j0, List.mem_cons_self _ _, ?_, rfl⟩
      simp_all

theorem depScan_total (g : Graph) (σ : State) (nm : String) :
    ∀ (L : List Nat) (cand : Nat), (∀ j ∈ L, Task.is_scheduled σ j = true) →
      ∃ c, depScan g σ nm L cand = .ok c := by
  intro L
  induction L with
  | nil =>
    intro cand _
    exact ⟨cand, rfl⟩
  | cons j0 rest ih =>
    intro cand hall
    have hs := hall j0 (List.mem_cons_self _ _)
    have := ih (if cand < Task.end_date g σ j0 then Task.end_date g σ j0 + 1 else cand)
      (fun j hj => hall j (List.mem_cons_of_mem _ hj))
    simpa [depScan, hs] using this

theorem depScan_congr (g : Graph) (σ σ2 : State) (nm : String) :
    ∀ (L : List Nat) (cand : Nat), (∀ j ∈ L, σ j = σ2 j) →
      depScan g σ nm L cand = depScan g σ2 nm L cand := by
  intro L
  induction L with
  | nil => intro cand _; rfl
  | cons j0 rest ih =>
    intro cand hagree
    have h0 : σ j0 = σ2 j0 := hagree j0 (List.mem_cons_self _ _)
    have hsched : Task.is_scheduled σ j0 = Task.is_scheduled σ2 j0 := by
      simp [Task.is_scheduled, h0]
    have hend : Task.end_date g σ j0 = Task.end_date g σ2 j0 := by
      simp [Task.end_date, Task.start_date, h0]
    have ihr := ih (if cand < Task.end_date g σ2 j0 then Task.end_date g σ2 j0 + 1 else cand)
      (fun j hj => hagree j (List.mem_cons_of_mem _ hj))
    simp only [depScan, hsched, hend]
    split
    · exact ihr
    · rfl

theorem resourcePass_ge (g : Graph) (σ : State) :
    ∀ (rs : List Nat) (d : Nat) (f : Bool), d ≤ (resourcePass g σ rs d f).1 := by
  intro rs
  induction rs with
  | nil => intro d f; simp [resourcePass]
  | cons r rest ih =>
    intro d f
    simp only [resourcePass]
    split
    · exact ih d f
    · have := ih (d + 1) false
      omega

theorem resourcePass_false (g : Graph) (σ : State) :
    ∀ (rs : List Nat) (d : Nat), (resourcePass g σ rs d false).2 = false := by
  intro rs
  induction rs with
  | nil => intro d; rfl
  | cons r rest ih =>
    intro d
    simp only [resourcePass]
    split
    · exact ih d
    · exact ih (d + 1)

theorem resourcePass_true_spec (g : Graph) (σ : State) :
    ∀ (rs : List Nat) (d d1 : Nat), resourcePass g σ rs d true = (d1, true) →
      d1 = d ∧ ∀ r ∈ rs, Resource.is_free g σ r d = true := by
  intro rs
  induction rs with
  | nil =>
    intro d d1 h
    cases h
    exact ⟨rfl, by simp⟩
  | cons r rest ih =>
    intro d d1 h
    simp only [resourcePass] at h
    split at h
    · obtain ⟨hd, hall⟩ := ih d d1 h
      refine ⟨hd, ?_⟩
      intro r2 hr2
      rcases List.mem_cons.mp hr2 with rfl | hr3
      · assumption
      · exact hall r2 hr3
    · exfalso
      have := resourcePass_false g σ rest (d + 1)
      rw [h] at this
      cases this

theorem resourcePass_progress (g : Graph) (σ : State) :
    ∀ (rs : List Nat) (d d1 : Nat), resourcePass g σ rs d true = (d1, false) → d < d1 := by
  intro rs
  induction rs with
  | nil =>
    intro d d1 h
    cases h
  | cons r rest ih =>
    intro d d1 h
    simp only [resourcePass] at h
    split at h
    · exact ih d d1 h
    · have := resourcePass_ge g σ rest (d + 1) false
      rw [h] at this
      simp at this
      omega

theorem resourcePass_busy (g : Graph) (σ : State) :
    ∀ (rs : List Nat) (d : Nat) (f : Bool) (x : Nat), d ≤ x →
      x < (resourcePass g σ rs d f).1 →
      ∃ r ∈ rs, Resource.is_free g σ r x = false := by
  intro rs
  induction rs with
  | nil =>
    intro d f x hdx hx
    simp [resourcePass] at hx
    omega
  | cons r rest ih =>
    intro d f x hdx hx
    simp only [resourcePass] at hx
    by_cases hfree : Resource.is_free g σ r d = true
    · rw [if_pos hfree] at hx
      obtain ⟨r2, hr2, hbusy⟩ := ih d f x hdx hx
      exact ⟨r2, List.mem_cons_of_mem _ hr2, hbusy⟩
    · rw [if_neg hfree] at hx
      rcases Nat.eq_or_lt_of_le hdx with rfl | hlt
      · exact ⟨r, List.mem_cons_self _ _, by simpa using hfree⟩
      · obtain ⟨r2, hr2, hbusy⟩ := ih (d + 1) false x hlt hx
        exact ⟨r2, List.mem_cons_of_mem _ hr2, hbusy⟩

theorem resourcePass_all_free (g : Graph) (σ : State) :
    ∀ (rs : List Nat) (d : Nat) (f : Bool),
      (∀ r ∈ rs, Resource.is_free g σ r d = true) →
      resourcePass g σ rs d f = (d, f) := by
  intro rs
  induction rs with
  | nil => intro d f _; rfl
  | cons r rest ih =>
    intro d f hall
    have hr := hall r (List.mem_cons_self _ _)
    simp only [resourcePass, hr, if_true]
    exact ih d f fun r2 hr2 => hall r2 (List.mem_cons_of_mem _ hr2)

theorem bound_le_of_mem (g : Graph) (σ : State) :
    ∀ (L : List Nat) (i : Nat), i ∈ L → Task.is_scheduled σ i = true →
      Task.end_date g σ i + 1 ≤
        L.foldr (fun k acc =>
          if Task.is_scheduled σ k then max (Task.end_date g σ k + 1) acc else acc) 0 := by
  intro L
  induction L with
  | nil =>
    intro i hi
    cases hi
  | cons j L ih =>
    intro i hi hs
    rcases List.mem_cons.mp hi with rfl | hi2
    · simp only [List.foldr, hs, if_true]
      exact Nat.le_max_left _ _
    · have h2 := ih i hi2 hs
      simp only [List.foldr]
      split
      · exact le_trans h2 (Nat.le_max_right _ _)
      · exact h2

theorem is_free_of_bound (g : Graph) (σ : State) (r d : Nat)
    (h : State.bound g σ ≤ d) : Resource.is_free g σ r d = true := by
  rw [is_free_iff]
  intro i hi hs hc
  have hlen := (mem_resource_tasks g r i hi).1
  have hb := bound_le_of_mem g σ (List.range g.tasks.length) i (List.mem_range.mpr hlen) hs
  have : Task.end_date g σ i + 1 ≤ State.bound g σ := hb
  omega

theorem deconflictFuel_correct (g : Graph) (σ : State) (rs : List Nat) :
    ∀ (fuel d : Nat), State.bound g σ ≤ d + fuel →
      d ≤ deconflictFuel g σ rs fuel d ∧
      (∀ r ∈ rs, Resource.is_free g σ r (deconflictFuel g σ rs fuel d) = true) ∧
      (∀ x, d ≤ x → x < deconflictFuel g σ rs fuel d →
        ∃ r ∈ rs, Resource.is_free g σ r x = false) := by
  intro fuel
  induction fuel with
  | zero =>
    intro d hb
    simp only [deconflictFuel]
    refine ⟨Nat.le_refl d, ?_, ?_⟩
    · intro r _
      exact is_free_of_bound g σ r d (by omega)
    · intro x h1 h2
      omega
  | succ fuel ih =>
    intro d hb
    rcases hpass : resourcePass g σ rs d true with ⟨d1, free⟩
    cases free with
    | true =>
      obtain ⟨hd, hall⟩ := resourcePass_true_spec g σ rs d d1 hpass
      subst hd
      have heq : deconflictFuel g σ rs (fuel + 1) d1 = d1 := by
        simp [deconflictFuel, hpass]
      rw [heq]
      exact ⟨Nat.le_refl _, hall, fun x h1 h2 => absurd h2 (by omega)⟩
    | false =>
      have hd1 := resourcePass_progress g σ rs d d1 hpass
      have heq : deconflictFuel g σ rs (fuel + 1) d = deconflictFuel g σ rs fuel d1 := by
        simp [deconflictFuel, hpass]
      rw [heq]
      obtain ⟨hrec1, hrec2, hrec3⟩ := ih d1 (by omega)
      refine ⟨by omega, hrec2, ?_⟩
      intro x h1 h2
      by_cases hx : x < d1
      · exact resourcePass_busy g σ rs d true x h1 (by rw [hpass]; exact hx)
      · exact hrec3 x (by omega) h2

theorem schedule_eq_error (g : Graph) (σ : State) (i : Nat) (e : String)
    (hdep : depScan g (Task.clear_schedule σ i) (g.task i).name (g.task i).dependencies
      g.chart.start_date = .error e) :
    Task.schedule g σ i = (some e, Task.clear_schedule σ i) := by
  simp only [Task.schedule]
  rw [hdep]

theorem schedule_eq_ok (g : Graph) (σ : State) (i : Nat) (cand : Nat)
    (hdep : depScan g (Task.clear_schedule σ i) (g.task i).name (g.task i).dependencies
      g.chart.start_date = .ok cand) :
    Task.schedule g σ i = (none, State.set (Task.clear_schedule σ i) i
      (some (deconflictFuel g (Task.clear_schedule σ i) (g.task i).resources
        (State.bound g (Task.clear_schedule σ i) + 1) cand))) := by
  simp only [Task.schedule]
  rw [hdep]

theorem schedule_snd_other (g : Graph) (σ : State) (i j : Nat) (h : j ≠ i) :
    (Task.schedule g σ i).2 j = σ j := by
  rcases hdep : depScan g (Task.clear_schedule σ i) (g.task i).name (g.task i).dependencies
      g.chart.start_date with e | cand
  · rw [schedule_eq_error g σ i e hdep]
    exact State.set_other σ i j none h
  · rw [schedule_eq_ok g σ i cand hdep]
    show State.set (Task.clear_schedule σ i) i _ j = σ j
    rw [State.set_other _ _ _ _ h]
    exact State.set_other σ i j none h

theorem schedule_success_spec (g : Graph) (σ : State) (i : Nat)
    (h : (Task.schedule g σ i).1 = none) :
    ∃ cand c,
      depScan g (Task.clear_schedule σ i) (g.task i).name (g.task i).dependencies
        g.chart.start_date = .ok cand ∧
      (Task.schedule g σ i).2 = State.set (Task.clear_schedule σ i) i (some c) ∧
      cand ≤ c ∧
      (∀ r ∈ (g.task i).resources,
        Resource.is_free g (Task.clear_schedule σ i) r c = true) ∧
      (∀ x, cand ≤ x → x < c → ∃ r ∈ (g.task i).resources,
        Resource.is_free g (Task.clear_schedule σ i) r x = false) := by
  rcases hdep : depScan g (Task.clear_schedule σ i) (g.task i).name (g.task i).dependencies
      g.chart.start_date with e | cand
  · exfalso
    rw [schedule_eq_error g σ i e hdep] at h
    exact absurd h (by simp)
  · obtain ⟨h1, h2, h3⟩ := deconflictFuel_correct g (Task.clear_schedule σ i)
      (g.task i).resources (State.bound g (Task.clear_schedule σ i) + 1) cand (by omega)
    refine ⟨cand, _, rfl, ?_, h1, h2, h3⟩
    rw [schedule_eq_ok g σ i cand hdep]

theorem schedule_success_scheduled (g : Graph) (σ : State) (i : Nat)
    (h : (Task.schedule g σ i).1 = none) :
    Task.is_scheduled (Task.schedule g σ i).2 i = true := by
  obtain ⟨cand, c, _, hst, _⟩ := schedule_success_spec g σ i h
  rw [Task.is_scheduled, hst, State.set_self]
  rfl

theorem schedule_fst_none_iff (g : Graph) (σ : State) (i : Nat) :
    (Task.schedule g σ i).1 = none ↔
      ∀ j ∈ (g.task i).dependencies, Task.is_scheduled (Task.clear_schedule σ i) j = true := by
  rcases hdep : depScan g (Task.clear_schedule σ i) (g.task i).name
      (g.task i).dependencies g.chart.start_date with e | cand
  · constructor
    · intro h
      exfalso
      rw [schedule_eq_error g σ i e hdep] at h
      exact absurd h (by simp)
    · intro hall
      obtain ⟨c, hc⟩ := depScan_total g (Task.clear_schedule σ i) (g.task i).name
        (g.task i).dependencies g.chart.start_date hall
      rw [hdep] at hc
      cases hc
  · constructor
    · intro _ j hj
      exact depScan_ok_sched g (Task.clear_schedule σ i) (g.task i).name
        (g.task i).dependencies g.chart.start_date cand hdep j hj
    · intro _
      rw [schedule_eq_ok g σ i cand hdep]

theorem contains_schedErrMsg_dep (d t : String) : Contains (schedErrMsg d t) d :=
  ⟨"Task ", " is a dependency of " ++ t ++
    " but has not been scheduled. Please place task prior to " ++ t ++ " in project",
   by simp [schedErrMsg, Contains, String.append_assoc]⟩

theorem contains_schedErrMsg_self (d t : String) : Contains (schedErrMsg d t) t :=
  ⟨"Task " ++ d ++ " is a dependency of ",
   " but has not been scheduled. Please place task prior to " ++ t ++ " in project",
   by simp [schedErrMsg, Contains, String.append_assoc]⟩

/-- C9: for a successful schedule() call, writing L for the lower bound the
dependency loop derives from the chart start date and the dependencies in
declaration order, the committed start date is the least day at or after L on
which every assigned resource is free (in the call's working state, with the
task's own cache cleared): the committed day is free for all assigned
resources, and each day from L up to it has at least one busy assigned
resource. -/
theorem schedule_commits_least_free (g : Graph) (σ : State) (i L : Nat)
    (h : (Task.schedule g σ i).1 = none)
    (hL : depScan g (Task.clear_schedule σ i) (g.task i).name (g.task i).dependencies
        g.chart.start_date = .ok L) :
    L ≤ Task.start_date (Task.schedule g σ i).2 i ∧
    (∀ r ∈ (g.task i).resources, Resource.is_free g (Task.clear_schedule σ i) r
        (Task.start_date (Task.schedule g σ i).2 i) = true) ∧
    (∀ x, L ≤ x → x < Task.start_date (Task.schedule g σ i).2 i →
      ∃ r ∈ (g.task i).resources,
        Resource.is_free g (Task.clear_schedule σ i) r x = false) := by
  obtain ⟨cand, c, hdep, hst, hle, hfree, hbusy⟩ := schedule_success_spec g σ i h
  rw [hdep] at hL
  injection hL with hcand
  subst hcand
  have hstart : Task.start_date (Task.schedule g σ i).2 i = c := by
    rw [Task.start_date, hst, State.set_self]
    rfl
  rw [hstart]
  exact ⟨hle, hfree, hbusy⟩

/-- Witness for C9: scheduling task I (id 1) of graphKIJ when only K (id 0) is
scheduled on day 0 commits day 2, with days 0 and 1 blocked by resource 0. -/
theorem schedule_commits_least_free_witness :
    (0 : Nat) ≤ Task.start_date
      (Task.schedule graphKIJ (State.set emptyState 0 (some 0)) 1).2 1 ∧
    (∀ r ∈ (graphKIJ.task 1).resources,
      Resource.is_free graphKIJ
        (Task.clear_schedule (State.set emptyState 0 (some 0)) 1) r
        (Task.start_date (Task.schedule graphKIJ (State.set emptyState 0 (some 0)) 1).2 1)
        = true) ∧
    (∀ x, 0 ≤ x →
      x < Task.start_date (Task.schedule graphKIJ (State.set emptyState 0 (some 0)) 1).2 1 →
      ∃ r ∈ (graphKIJ.task 1).resources,
        Resource.is_free graphKIJ
          (Task.clear_schedule (State.set emptyState 0 (some 0)) 1) r x = false) :=
  schedule_commits_least_free graphKIJ (State.set emptyState 0 (some 0)) 1 0
    (by decide) (by rfl)

/-- C6: Task.schedule raises exactly when some dependency is unscheduled at the
time of the call (stated for a task that is not its own dependency, the data
model's invariant); the raised message embeds both the unscheduled dependency's
name and the dependent task's name; and a failed call leaves the task's own
cached start date cleared, so the call can safely be retried after the
ordering is fixed. -/
theorem schedule_error_characterization (g : Graph) (σ : State) (i : Nat)
    (hself : i ∉ (g.task i).dependencies) :
    ((Task.schedule g σ i).1 ≠ none ↔
      ∃ j ∈ (g.task i).dependencies, Task.is_scheduled σ j = false) ∧
    (∀ e, (Task.schedule g σ i).1 = some e →
      (∃ j ∈ (g.task i).dependencies, Task.is_scheduled σ j = false ∧
        e = schedErrMsg (g.task j).name (g.task i).name ∧
        Contains e (g.task j).name ∧ Contains e (g.task i).name) ∧
      (Task.schedule g σ i).2 i = none) := by
  have hagree : ∀ j ∈ (g.task i).dependencies,
      Task.is_scheduled (Task.clear_schedule σ i) j = Task.is_scheduled σ j := by
    intro j hj
    rw [Task.is_scheduled, Task.is_scheduled, Task.clear_schedule,
      State.set_other σ i j none (fun hh => hself (hh ▸ hj))]
  have hiff : (Task.schedule g σ i).1 = none ↔
      ∀ j ∈ (g.task i).dependencies, Task.is_scheduled σ j = true := by
    rw [schedule_fst_none_iff]
    exact forall_congr' fun j => forall_congr' fun hj => by rw [hagree j hj]
  constructor
  · constructor
    · intro hne
      by_contra hc
      push_neg at hc
      apply hne
      rw [hiff]
      intro j hj
      have h2 := hc j hj
      cases hb : Task.is_scheduled σ j
      · exact absurd hb h2
      · rfl
    · rintro ⟨j, hj, hns⟩ he
      rw [hiff] at he
      rw [he j hj] at hns
      cases hns
  · intro e he
    rcases hdep : depScan g (Task.clear_schedule σ i) (g.task i).name
        (g.task i).dependencies g.chart.start_date with e2 | cand
    · have he2 : e2 = e := by
        rw [schedule_eq_error g σ i e2 hdep] at he
        simpa using he
      obtain ⟨j, hj, hns, hmsg⟩ := depScan_error_spec g (Task.clear_schedule σ i)
        (g.task i).name (g.task i).dependencies g.chart.start_date e2 hdep
      have hmsg2 : e = schedErrMsg (g.task j).name (g.task i).name := by
        rw [← he2]
        exact hmsg
      refine ⟨⟨j, hj, ?_, hmsg2, ?_, ?_⟩, ?_⟩
      · rw [← hagree j hj]
        exact hns
      · rw [hmsg2]
        exact contains_schedErrMsg_dep _ _
      · rw [hmsg2]
        exact contains_schedErrMsg_self _ _
      · rw [schedule_eq_error g σ i e2 hdep]
        exact State.set_self σ i none
    · exfalso
      rw [schedule_eq_ok g σ i cand hdep] at he
      exact absurd he (by simp)

/-- Witness for C6: scheduling task B (id 0) of graphDep, whose dependency A
(id 1) is unscheduled, raises with a message naming A and B, and leaves B
unscheduled. -/
theorem schedule_error_characterization_witness :
    (Task.schedule graphDep emptyState 0).1 ≠ none ∧
    ((∃ j ∈ (graphDep.task 0).dependencies, Task.is_scheduled emptyState j = false ∧
        schedErrMsg "A" "B" = schedErrMsg (graphDep.task j).name (graphDep.task 0).name ∧
        Contains (schedErrMsg "A" "B") (graphDep.task j).name ∧
        Contains (schedErrMsg "A" "B") (graphDep.task 0).name) ∧
      (Task.schedule graphDep emptyState 0).2 0 = none) := by
  have h := schedule_error_characterization graphDep emptyState 0 (by decide)
  refine ⟨h.1.mpr ⟨1, by decide, by decide⟩, h.2 (schedErrMsg "A" "B") ?_⟩
  rfl

/-- C7: Chart.add_project(p) is a no-op when p is already the attached project;
it raises when a different project is already attached and then leaves the
chart's project list (indeed the whole state) unchanged; otherwise it attaches
p and sets p's back-reference to the chart. -/
theorem add_project_characterization (st : ProjState) (c p : Nat) :
    (p ∈ st.projects → Chart.add_project st c p = (none, st)) ∧
    (p ∉ st.projects → 1 ≤ st.projects.length →
      (Chart.add_project st c p).1.isSome = true ∧ (Chart.add_project st c p).2 = st) ∧
    (p ∉ st.projects → st.projects.length = 0 →
      (Chart.add_project st c p).1 = none ∧
      (Chart.add_project st c p).2.projects = st.projects ++ [p] ∧
      (Chart.add_project st c p).2.projChart p = some c) := by
  refine ⟨?_, ?_, ?_⟩
  · intro h
    simp [Chart.add_project, h]
  · intro h h1
    simp [Chart.add_project, h, h1]
  · intro h h0
    have h1 : ¬ 1 ≤ st.projects.length := by omega
    simp [Chart.add_project, h, h1]

/-- Witness for C7, covering the three branches on concrete states. -/
theorem add_project_characterization_witness :
    Chart.add_project ⟨[5], fun _ => none⟩ 7 5 = (none, ⟨[5], fun _ => none⟩) ∧
    ((Chart.add_project ⟨[5], fun _ => none⟩ 7 3).1.isSome = true ∧
      (Chart.add_project ⟨[5], fun _ => none⟩ 7 3).2 = ⟨[5], fun _ => none⟩) ∧
    ((Chart.add_project ⟨[], fun _ => none⟩ 7 3).1 = none ∧
      (Chart.add_project ⟨[], fun _ => none⟩ 7 3).2.projects = [] ++ [3] ∧
      (Chart.add_project ⟨[], fun _ => none⟩ 7 3).2.projChart 3 = some 7) :=
  ⟨(add_project_characterization ⟨[5], fun _ => none⟩ 7 5).1 (by simp),
   (add_project_characterization ⟨[5], fun _ => none⟩ 7 3).2.1 (by simp) (by simp),
   (add_project_characterization ⟨[], fun _ => none⟩ 7 3).2.2 (by simp) rfl⟩

/-- C8: Resource.is_free(date) is false exactly when at least one task assigned
to the resource is scheduled and its inclusive [start_date, end_date] interval
contains the queried date; in particular unscheduled assigned tasks never make
the resource busy, and only the single queried date is inspected. -/
theorem is_free_unless_scheduled_overlap (g : Graph) (σ : State) (r d : Nat) :
    Resource.is_free g σ r d = false ↔
      ∃ i ∈ Resource.tasks g r, Task.is_scheduled σ i = true ∧
        Task.start_date σ i ≤ d ∧ d ≤ Task.end_date g σ i := by
  rw [← Bool.not_eq_true, is_free_iff]
  push_neg
  constructor
  · rintro ⟨i, hi, hs, hc⟩
    exact ⟨i, hi, hs, hc⟩
  · rintro ⟨i, hi, hs, hc⟩
    exact ⟨i, hi, hs, hc⟩

theorem start_date_congr (σ σ2 : State) (i : Nat) (h : σ i = σ2 i) :
    Task.start_date σ i = Task.start_date σ2 i := by
  simp only [Task.start_date, h]

theorem end_date_congr (g : Graph) (σ σ2 : State) (i : Nat) (h : σ i = σ2 i) :
    Task.end_date g σ i = Task.end_date g σ2 i := by
  simp only [Task.end_date, Task.start_date, h]

theorem calcAux_cons (g : Graph) (i : Nat) (rest : List Nat) (σ : State) :
    calcAux g (i :: rest) σ =
      match Task.schedule g σ i with
      | (none, σ1) => calcAux g rest σ1
      | (some e, σ1) => (some e, σ1) := rfl

theorem calcAux_untouched (g : Graph) :
    ∀ (L : List Nat) (σ : State) (j : Nat), j ∉ L → (calcAux g L σ).2 j = σ j := by
  intro L
  induction L with
  | nil => intro σ j _; rfl
  | cons i rest ih =>
    intro σ j hj
    have hji : j ≠ i := fun hh => hj (hh ▸ List.mem_cons_self _ _)
    have hjr : j ∉ rest := fun hh => hj (List.mem_cons_of_mem _ hh)
    have hso := schedule_snd_other g σ i j hji
    rcases hs : Task.schedule g σ i with ⟨err, σ1⟩
    rw [hs] at hso
    cases err with
    | none =>
      have e1 : calcAux g (i :: rest) σ = calcAux g rest σ1 := by
        rw [calcAux_cons, hs]
      rw [e1, ih σ1 j hjr]
      exact hso
    | some e =>
      have e1 : calcAux g (i :: rest) σ = (some e, σ1) := by
        rw [calcAux_cons, hs]
      rw [e1]
      exact hso

theorem calcAux_prefix_ok (g : Graph) :
    ∀ (L1 L2 : List Nat) (σ : State), (calcAux g (L1 ++ L2) σ).1 = none →
      (calcAux g L1 σ).1 = none := by
  intro L1
  induction L1 with
  | nil => intro L2 σ _; rfl
  | cons i rest ih =>
    intro L2 σ h
    rcases hs : Task.schedule g σ i with ⟨err, σ1⟩
    cases err with
    | none =>
      have e1 : calcAux g ((i :: rest) ++ L2) σ = calcAux g (rest ++ L2) σ1 := by
        rw [List.cons_append, calcAux_cons, hs]
      have e2 : calcAux g (i :: rest) σ = calcAux g rest σ1 := by
        rw [calcAux_cons, hs]
      rw [e2]
      rw [e1] at h
      exact ih L2 σ1 h
    | some e =>
      exfalso
      have e1 : (calcAux g ((i :: rest) ++ L2) σ).1 = some e := by
        rw [List.cons_append, calcAux_cons, hs]
      rw [h] at e1
      cases e1

theorem calcAux_append_ok (g : Graph) :
    ∀ (L1 L2 : List Nat) (σ : State), (calcAux g L1 σ).1 = none →
      calcAux g (L1 ++ L2) σ = calcAux g L2 (calcAux g L1 σ).2 := by
  intro L1
  induction L1 with
  | nil => intro L2 σ _; rfl
  | cons i rest ih =>
    intro L2 σ h
    rcases hs : Task.schedule g σ i with ⟨err, σ1⟩
    cases err with
    | none =>
      have e2 : calcAux g (i :: rest) σ = calcAux g rest σ1 := by
        rw [calcAux_cons, hs]
      have e1 : calcAux g ((i :: rest) ++ L2) σ = calcAux g (rest ++ L2) σ1 := by
        rw [List.cons_append, calcAux_cons, hs]
      rw [e1, e2]
      rw [e2] at h
      exact ih L2 σ1 h
    | some e =>
      exfalso
      have e2 : (calcAux g (i :: rest) σ).1 = some e := by
        rw [calcAux_cons, hs]
      rw [h] at e2
      cases e2

theorem calcAux_sched (g : Graph) :
    ∀ (L : List Nat) (σ : State), (calcAux g L σ).1 = none →
      ∀ i ∈ L, Task.is_scheduled (calcAux g L σ).2 i = true := by
  intro L
  induction L with
  | nil => intro σ _ i hi; cases hi
  | cons i0 rest ih =>
    intro σ h i hi
    rcases hs : Task.schedule g σ i0 with ⟨err, σ1⟩
    cases err with
    | some e =>
      exfalso
      have e1 : (calcAux g (i0 :: rest) σ).1 = some e := by rw [calcAux_cons, hs]
      rw [h] at e1
      cases e1
    | none =>
      have e1 : calcAux g (i0 :: rest) σ = calcAux g rest σ1 := by rw [calcAux_cons, hs]
      rw [e1] at h ⊢
      rcases List.mem_cons.mp hi with heq | hir
      · rw [heq]
        by_cases hmem : i0 ∈ rest
        · exact ih σ1 h i0 hmem
        · have hsch := schedule_success_scheduled g σ i0 (by rw [hs])
          rw [hs] at hsch
          simp only [Task.is_scheduled]
          rw [calcAux_untouched g rest σ1 i0 hmem]
          exact hsch
      · exact ih σ1 h i hir

theorem calc_prefix_avoids (g : Graph) (j : Nat) (hj : j < g.tasks.length)
    (hpre : (calcAux g (List.range (j + 1)) emptyState).1 = none)
    (i r : Nat) (hij : i < j)
    (hri : r ∈ (g.task i).resources) (hrj : r ∈ (g.task j).resources) :
    ¬ (Task.start_date (calcAux g (List.range (j + 1)) emptyState).2 i ≤
         Task.start_date (calcAux g (List.range (j + 1)) emptyState).2 j ∧
       Task.start_date (calcAux g (List.range (j + 1)) emptyState).2 j ≤
         Task.end_date g (calcAux g (List.range (j + 1)) emptyState).2 i) := by
  have hne : i ≠ j := by omega
  have hsp : List.range (j + 1) = List.range j ++ [j] := List.range_succ j
  rw [hsp] at hpre ⊢
  have hpre2 : (calcAux g (List.range j) emptyState).1 = none :=
    calcAux_prefix_ok g (List.range j) [j] emptyState hpre
  have happ := calcAux_append_ok g (List.range j) [j] emptyState hpre2
  rw [happ] at hpre ⊢
  have hstep : (Task.schedule g (calcAux g (List.range j) emptyState).2 j).1 = none := by
    rcases hs : Task.schedule g (calcAux g (List.range j) emptyState).2 j with ⟨err, σ1⟩
    cases err with
    | none => rfl
    | some e =>
      exfalso
      have e1 : (calcAux g [j] (calcAux g (List.range j) emptyState).2).1 = some e := by
        rw [calcAux_cons, hs]
      rw [hpre] at e1
      cases e1
  have hfin : (calcAux g [j] (calcAux g (List.range j) emptyState).2).2 =
      (Task.schedule g (calcAux g (List.range j) emptyState).2 j).2 := by
    rcases hs : Task.schedule g (calcAux g (List.range j) emptyState).2 j with ⟨err, σ1⟩
    cases err with
    | none =>
      rw [calcAux_cons, hs]
      rfl
    | some e =>
      rw [calcAux_cons, hs]
  obtain ⟨cand, c, hdep, hst, hle, hfree, hbusy⟩ :=
    schedule_success_spec g (calcAux g (List.range j) emptyState).2 j hstep
  have hclear_i : Task.clear_schedule (calcAux g (List.range j) emptyState).2 j i =
      (calcAux g (List.range j) emptyState).2 i :=
    State.set_other _ _ _ _ hne
  have hfin_i : (calcAux g [j] (calcAux g (List.range j) emptyState).2).2 i =
      (calcAux g (List.range j) emptyState).2 i := by
    rw [hfin, hst, State.set_other _ _ _ _ hne]
    exact hclear_i
  have hfin_j : Task.start_date (calcAux g [j] (calcAux g (List.range j) emptyState).2).2 j = c := by
    simp only [Task.start_date]
    rw [hfin, hst, State.set_self]
    rfl
  have hischedi : Task.is_scheduled (calcAux g (List.range j) emptyState).2 i = true :=
    calcAux_sched g (List.range j) emptyState hpre2 i (List.mem_range.mpr hij)
  have himem : i ∈ Resource.tasks g r := by
    refine List.mem_filter.mpr ⟨List.mem_range.mpr (by omega), ?_⟩
    simpa using hri
  have hfree_r := hfree r hrj
  rw [is_free_iff] at hfree_r
  have hnot := hfree_r i himem (by
    simp only [Task.is_scheduled]
    rw [hclear_i]
    exact hischedi)
  intro hcontra
  apply hnot
  constructor
  · rw [start_date_congr _ _ i hclear_i,
      ← start_date_congr _ _ i hfin_i, ← hfin_j]
    exact hcontra.1
  · rw [end_date_congr g _ _ i hclear_i,
      ← end_date_congr g _ _ i hfin_i, ← hfin_j]
    exact hcontra.2

/-- C4 amended: for two tasks that share a resource and are scheduled by one
calculate_schedule run from the all-unscheduled state, the task scheduled later
(larger project index) never starts inside the interval committed by the
earlier task; the symmetric claim fails, since the earlier task's start date
can lie inside the later task's interval (see the counterexample). -/
theorem start_respects_earlier_intervals (g : Graph)
    (h : (Chart.calculate_schedule g emptyState).1 = none)
    (i j r : Nat) (hij : i < j) (hj : j < g.tasks.length)
    (hri : r ∈ (g.task i).resources) (hrj : r ∈ (g.task j).resources) :
    ¬ (Task.start_date (Chart.calculate_schedule g emptyState).2 i ≤
         Task.start_date (Chart.calculate_schedule g emptyState).2 j ∧
       Task.start_date (Chart.calculate_schedule g emptyState).2 j ≤
         Task.end_date g (Chart.calculate_schedule g emptyState).2 i) := by
  have hsplit : List.range g.tasks.length =
      List.range (j + 1) ++
        (List.range (g.tasks.length - (j + 1))).map (fun x => (j + 1) + x) := by
    rw [← List.range_add]
    congr 1
    omega
  rw [Chart.calculate_schedule, hsplit] at h ⊢
  have hpre : (calcAux g (List.range (j + 1)) emptyState).1 = none :=
    calcAux_prefix_ok g (List.range (j + 1))
      (List.map (fun x => j + 1 + x) (List.range (g.tasks.length - (j + 1)))) emptyState h
  have happ := calcAux_append_ok g (List.range (j + 1))
    (List.map (fun x => j + 1 + x) (List.range (g.tasks.length - (j + 1)))) emptyState hpre
  rw [happ] at h ⊢
  have hnotmem : ∀ y, y ≤ j →
      y ∉ (List.range (g.tasks.length - (j + 1))).map (fun x => (j + 1) + x) := by
    intro y hy hmem
    obtain ⟨z, _, hz⟩ := List.mem_map.mp hmem
    omega
  have hui := calcAux_untouched g _ (calcAux g (List.range (j + 1)) emptyState).2 i
    (hnotmem i (by omega))
  have huj := calcAux_untouched g _ (calcAux g (List.range (j + 1)) emptyState).2 j
    (hnotmem j (by omega))
  have hmain := calc_prefix_avoids g j hj hpre i r hij hri hrj
  intro hcontra
  apply hmain
  constructor
  · rw [← start_date_congr _ _ i hui, ← start_date_congr _ _ j huj]
    exact hcontra.1
  · rw [← start_date_congr _ _ j huj, ← end_date_congr g _ _ i hui]
    exact hcontra.2

/-- Witness for the amended C4 on graphKIJ: task K (id 0) and task I (id 1)
share resource 0, and I, scheduled later, does not start inside K's interval. -/
theorem start_respects_earlier_intervals_witness :
    ¬ (Task.start_date (Chart.calculate_schedule graphKIJ emptyState).2 0 ≤
         Task.start_date (Chart.calculate_schedule graphKIJ emptyState).2 1 ∧
       Task.start_date (Chart.calculate_schedule graphKIJ emptyState).2 1 ≤
         Task.end_date graphKIJ (Chart.calculate_schedule graphKIJ emptyState).2 0) :=
  start_respects_earlier_intervals graphKIJ (by decide) 0 1 0 (by decide) (by decide)
    (by decide) (by decide)

/-- C3 amended: after a successful schedule() call the task's start date is at
least each dependency's end date; it exceeds it by at least one day only when
the dependency's end date was strictly later than the running candidate when
processed, and a dependency whose end date equals the candidate is not advanced
past. Stated for dependencies other than the task itself. -/
theorem start_ge_dependency_end (g : Graph) (σ : State) (i j : Nat)
    (h : (Task.schedule g σ i).1 = none) (hj : j ∈ (g.task i).dependencies)
    (hij : j ≠ i) :
    Task.end_date g (Task.schedule g σ i).2 j ≤
      Task.start_date (Task.schedule g σ i).2 i := by
  obtain ⟨cand, c, hdep, hst, hle, _, _⟩ := schedule_success_spec g σ i h
  have hend := depScan_ok_end_le g (Task.clear_schedule σ i) (g.task i).name
    (g.task i).dependencies g.chart.start_date cand hdep j hj
  have hstart : Task.start_date (Task.schedule g σ i).2 i = c := by
    simp only [Task.start_date]
    rw [hst, State.set_self]
    rfl
  have hs2 : (Task.schedule g σ i).2 j = Task.clear_schedule σ i j := by
    rw [schedule_snd_other g σ i j hij]
    exact (State.set_other σ i j none hij).symm
  rw [hstart, end_date_congr g _ _ j hs2]
  omega

/-- Witness for the amended C3: scheduling task C (id 2) of graphABC after A
and B are scheduled commits a start date at least B's end date. -/
theorem start_ge_dependency_end_witness :
    Task.end_date graphABC
        (Task.schedule graphABC (calcAux graphABC [0, 1] emptyState).2 2).2 1 ≤
      Task.start_date (Task.schedule graphABC (calcAux graphABC [0, 1] emptyState).2 2).2 2 :=
  start_ge_dependency_end graphABC (calcAux graphABC [0, 1] emptyState).2 2 1
    (by decide) (by decide) (by decide)

theorem is_free_cleared_noshare (g : Graph) (σ : State) (i r d : Nat)
    (hsh : ∀ k, k < g.tasks.length → k ≠ i → r ∈ (g.task k).resources → False) :
    Resource.is_free g (State.set σ i none) r d = true := by
  rw [is_free_iff]
  intro k hk hsched hc
  obtain ⟨hlen, hres⟩ := mem_resource_tasks g r k hk
  by_cases hki : k = i
  · subst hki
    simp [Task.is_scheduled, State.set_self] at hsched
  · exact hsh k hlen hki hres

theorem schedule_noshare_commits_cand (g : Graph) (σ : State) (i cand : Nat)
    (hsh : ∀ r ∈ (g.task i).resources, ∀ k, k < g.tasks.length → k ≠ i →
      r ∈ (g.task k).resources → False)
    (hdep : depScan g (Task.clear_schedule σ i) (g.task i).name (g.task i).dependencies
      g.chart.start_date = .ok cand) :
    Task.schedule g σ i = (none, State.set (Task.clear_schedule σ i) i (some cand)) := by
  rw [schedule_eq_ok g σ i cand hdep]
  have hall : ∀ r ∈ (g.task i).resources,
      Resource.is_free g (Task.clear_schedule σ i) r cand = true := by
    intro r hr
    exact is_free_cleared_noshare g σ i r cand (hsh r hr)
  have hpass := resourcePass_all_free g (Task.clear_schedule σ i)
    (g.task i).resources cand true hall
  have hdc : deconflictFuel g (Task.clear_schedule σ i) (g.task i).resources
      (State.bound g (Task.clear_schedule σ i) + 1) cand = cand := by
    simp [deconflictFuel, hpass]
  rw [hdc]

theorem first_run_cand (g : Graph)
    (hdeps : ∀ i, i < g.tasks.length → ∀ j ∈ (g.task i).dependencies, j < i)
    (hsh : ∀ i, i < g.tasks.length → ∀ r ∈ (g.task i).resources, ∀ k,
      k < g.tasks.length → k ≠ i → r ∈ (g.task k).resources → False) :
    ∀ m, m ≤ g.tasks.length → (calcAux g (List.range m) emptyState).1 = none →
      ∀ i, i < m → ∃ L,
        depScan g (Task.clear_schedule (calcAux g (List.range m) emptyState).2 i)
          (g.task i).name (g.task i).dependencies g.chart.start_date = .ok L ∧
        (calcAux g (List.range m) emptyState).2 i = some L := by
  intro m
  induction m with
  | zero =>
    intro _ _ i hi
    omega
  | succ m ih =>
    intro hmle h i hi
    have hsp : List.range (m + 1) = List.range m ++ [m] := List.range_succ m
    rw [hsp] at h ⊢
    have hpre : (calcAux g (List.range m) emptyState).1 = none :=
      calcAux_prefix_ok g (List.range m) [m] emptyState h
    have happ := calcAux_append_ok g (List.range m) [m] emptyState hpre
    rw [happ] at h ⊢
    have hstep : (Task.schedule g (calcAux g (List.range m) emptyState).2 m).1 = none := by
      rcases hs : Task.schedule g (calcAux g (List.range m) emptyState).2 m with ⟨err, σ1⟩
      cases err with
      | none => rfl
      | some e =>
        exfalso
        have e1 : (calcAux g [m] (calcAux g (List.range m) emptyState).2).1 = some e := by
          rw [calcAux_cons, hs]
        rw [h] at e1
        cases e1
    obtain ⟨candm, cm, hdepm, hstm, _, _, _⟩ :=
      schedule_success_spec g (calcAux g (List.range m) emptyState).2 m hstep
    have hcomm := schedule_noshare_commits_cand g (calcAux g (List.range m) emptyState).2 m
      candm (fun r hr => hsh m (by omega) r hr) hdepm
    have hfin : calcAux g [m] (calcAux g (List.range m) emptyState).2 =
        (none, State.set (Task.clear_schedule (calcAux g (List.range m) emptyState).2 m)
          m (some candm)) := by
      rw [calcAux_cons, hcomm]
      rfl
    rw [hfin]
    by_cases him : i = m
    · subst him
      refine ⟨candm, ?_, State.set_self _ _ _⟩
      refine Eq.trans (depScan_congr g _ _ (g.task i).name (g.task i).dependencies
        g.chart.start_date ?_) hdepm
      intro j hj
      have hji : j < i := hdeps i (by omega) j hj
      have hji2 : j ≠ i := by omega
      have h1 : Task.clear_schedule (State.set
            (Task.clear_schedule (calcAux g (List.range i) emptyState).2 i) i
            (some candm)) i j
          = State.set (Task.clear_schedule (calcAux g (List.range i) emptyState).2 i) i
            (some candm) j := State.set_other _ _ _ _ hji2
      have h2 : State.set (Task.clear_schedule (calcAux g (List.range i) emptyState).2 i) i
            (some candm) j
          = Task.clear_schedule (calcAux g (List.range i) emptyState).2 i j :=
        State.set_other _ _ _ _ hji2
      exact h1.trans h2
    · have hi2 : i < m := by omega
      obtain ⟨L, hscan, hval⟩ := ih (by omega) hpre i hi2
      have hdj : ∀ j ∈ (g.task i).dependencies, j < i := hdeps i (by omega)
      have hentry : State.set (Task.clear_schedule (calcAux g (List.range m) emptyState).2 m)
          m (some candm) i = (calcAux g (List.range m) emptyState).2 i := by
        have him2 : i ≠ m := him
        have h1 : State.set (Task.clear_schedule (calcAux g (List.range m) emptyState).2 m)
            m (some candm) i
            = Task.clear_schedule (calcAux g (List.range m) emptyState).2 m i :=
          State.set_other _ _ _ _ him2
        have h2 : Task.clear_schedule (calcAux g (List.range m) emptyState).2 m i
            = (calcAux g (List.range m) emptyState).2 i :=
          State.set_other _ _ _ _ him2
        exact h1.trans h2
      refine ⟨L, ?_, hentry.trans hval⟩
      refine Eq.trans (depScan_congr g _ _ (g.task i).name (g.task i).dependencies
        g.chart.start_date ?_) hscan
      intro j hj
      have hji : j < i := hdj j hj
      have hji2 : j ≠ i := by omega
      have hjm : j ≠ m := by omega
      have h1 : Task.clear_schedule (State.set
            (Task.clear_schedule (calcAux g (List.range m) emptyState).2 m) m
            (some candm)) i j
          = State.set (Task.clear_schedule (calcAux g (List.range m) emptyState).2 m) m
            (some candm) j := State.set_other _ _ _ _ hji2
      have h2 : State.set (Task.clear_schedule (calcAux g (List.range m) emptyState).2 m) m
            (some candm) j
          = Task.clear_schedule (calcAux g (List.range m) emptyState).2 m j :=
        State.set_other _ _ _ _ hjm
      have h3 : Task.clear_schedule (calcAux g (List.range m) emptyState).2 m j
          = (calcAux g (List.range m) emptyState).2 j :=
        State.set_other _ _ _ _ hjm
      have h4 : Task.clear_schedule (calcAux g (List.range m) emptyState).2 i j
          = (calcAux g (List.range m) emptyState).2 j :=
        State.set_other _ _ _ _ hji2
      exact ((h1.trans h2).trans h3).trans h4.symm

theorem rerun_fixpoint (g : Graph) (σ1 : State)
    (hsh : ∀ i, i < g.tasks.length → ∀ r ∈ (g.task i).resources, ∀ k,
      k < g.tasks.length → k ≠ i → r ∈ (g.task k).resources → False)
    (hfact : ∀ i, i < g.tasks.length → ∃ L,
      depScan g (Task.clear_schedule σ1 i) (g.task i).name (g.task i).dependencies
        g.chart.start_date = .ok L ∧ σ1 i = some L) :
    ∀ L : List Nat, (∀ i ∈ L, i < g.tasks.length) → calcAux g L σ1 = (none, σ1) := by
  intro L
  induction L with
  | nil => intro _; rfl
  | cons i rest ih =>
    intro hall
    have hi := hall i (List.mem_cons_self _ _)
    obtain ⟨Li, hscan, hval⟩ := hfact i hi
    have hcomm := schedule_noshare_commits_cand g σ1 i Li (fun r hr => hsh i hi r hr) hscan
    have hstate : State.set (Task.clear_schedule σ1 i) i (some Li) = σ1 := by
      funext j
      by_cases hj : j = i
      · subst hj
        rw [State.set_self, hval]
      · exact (State.set_other _ _ _ _ hj).trans (State.set_other _ _ _ _ hj)
    rw [calcAux_cons, hcomm, hstate]
    exact ih fun k hk => hall k (List.mem_cons_of_mem _ hk)

/-- C5 amended: calculate_schedule is idempotent on graphs whose dependencies
point only to earlier tasks (the documented insertion-order contract) and in
which no two distinct tasks share a resource: after a successful first call on
the all-unscheduled graph, a second call succeeds and returns exactly the same
state, hence identical start and end dates for every task. When a resource is
shared the second call can move tasks (see the counterexample). -/
theorem calculate_schedule_idempotent_noshare (g : Graph)
    (hdeps : ∀ i, i < g.tasks.length → ∀ j ∈ (g.task i).dependencies, j < i)
    (hsh : ∀ i, i < g.tasks.length → ∀ r ∈ (g.task i).resources, ∀ k,
      k < g.tasks.length → k ≠ i → r ∈ (g.task k).resources → False)
    (h : (Chart.calculate_schedule g emptyState).1 = none) :
    Chart.calculate_schedule g (Chart.calculate_schedule g emptyState).2 =
      (none, (Chart.calculate_schedule g emptyState).2) := by
  have hfact := first_run_cand g hdeps hsh g.tasks.length (Nat.le_refl _) h
  exact rerun_fixpoint g (Chart.calculate_schedule g emptyState).2 hsh
    (fun i hi => hfact i hi) (List.range g.tasks.length)
    (fun i hi => List.mem_range.mp hi)

/-- Witness for the amended C5 on graphNoShare: two tasks with disjoint
resources and forward-only dependencies reschedule to the same state. -/
theorem calculate_schedule_idempotent_noshare_witness :
    Chart.calculate_schedule graphNoShare
        (Chart.calculate_schedule graphNoShare emptyState).2 =
      (none, (Chart.calculate_schedule graphNoShare emptyState).2) :=
  calculate_schedule_idempotent_noshare graphNoShare (by decide) (by decide) (by decide)

/-- C2: in a chart starting 2024-01-01 (day 738885, a Monday) with weekends
skipped and one resource A (id 0), after calculate_schedule task X (duration 2,
resource A, no dependency) starts 2024-01-01 and ends 2024-01-03, and task Y
(duration 1, resource A, depending on X) starts 2024-01-04 and ends
2024-01-05. -/
theorem scenario_two_tasks_shared_resource :
    (Chart.calculate_schedule graphC2 emptyState).1 = none ∧
    Task.start_date (Chart.calculate_schedule graphC2 emptyState).2 0 = jan1_2024 ∧
    Task.end_date graphC2 (Chart.calculate_schedule graphC2 emptyState).2 0 = jan1_2024 + 2 ∧
    Task.start_date (Chart.calculate_schedule graphC2 emptyState).2 1 = jan1_2024 + 3 ∧
    Task.end_date graphC2 (Chart.calculate_schedule graphC2 emptyState).2 1 = jan1_2024 + 4 := by
  decide

/-- Counterexample to C3 as stated: in graphABC scheduling succeeds, task C
(id 2) has task B (id 1) among its dependencies, yet C's committed start date
equals B's end date rather than being at least one day after it, because the
dependency loop only advances the candidate when a dependency ends strictly
later than the candidate. -/
theorem dependency_gap_counterexample :
    (Chart.calculate_schedule graphABC emptyState).1 = none ∧
    (1 : Nat) ∈ (graphABC.task 2).dependencies ∧
    ¬ (Task.end_date graphABC (Chart.calculate_schedule graphABC emptyState).2 1 + 1 ≤
        Task.start_date (Chart.calculate_schedule graphABC emptyState).2 2) := by
  decide

/-- Counterexample to C4 as stated: in graphKIJ tasks I (id 1) and J (id 2)
share resource 1 and both are scheduled by calculate_schedule, yet I's start
date (day 2) lies inside J's committed interval [0, 7]: only the task scheduled
later avoids the intervals committed before it. -/
theorem start_in_interval_counterexample :
    (Chart.calculate_schedule graphKIJ emptyState).1 = none ∧
    (1 : Nat) ∈ (graphKIJ.task 1).resources ∧
    (1 : Nat) ∈ (graphKIJ.task 2).resources ∧
    Task.is_scheduled (Chart.calculate_schedule graphKIJ emptyState).2 1 = true ∧
    Task.is_scheduled (Chart.calculate_schedule graphKIJ emptyState).2 2 = true ∧
    Task.start_date (Chart.calculate_schedule graphKIJ emptyState).2 2 ≤
      Task.start_date (Chart.calculate_schedule graphKIJ emptyState).2 1 ∧
    Task.start_date (Chart.calculate_schedule graphKIJ emptyState).2 1 ≤
      Task.end_date graphKIJ (Chart.calculate_schedule graphKIJ emptyState).2 2 := by
  decide

/-- Counterexample to C5 as stated: calling calculate_schedule a second time on
graphKIJ, unchanged after the first call, moves task I (id 1) from day 2 to
day 8, because during the recomputation the stale committed interval of the
later task J still blocks resource 1. -/
theorem idempotence_counterexample :
    (Chart.calculate_schedule graphKIJ emptyState).1 = none ∧
    (Chart.calculate_schedule graphKIJ
        (Chart.calculate_schedule graphKIJ emptyState).2).1 = none ∧
    (Chart.calculate_schedule graphKIJ emptyState).2 1 = some 2 ∧
    (Chart.calculate_schedule graphKIJ
        (Chart.calculate_schedule graphKIJ emptyState).2).2 1 = some 8 := by
  decide

end Gantt
